import Mathlib

/-!
Verification development for the teldrive-upload repository
(`pkg/services/upload.go`): a shallow embedding of the chunked, resumable,
concurrent upload pipeline, together with theorems about its part plan,
resume behaviour, completeness check, manifest ordering and network-call
discipline.

Conventions of the embedding:
* Go `int`/`int64` fields coming from the wire (part numbers, part ids,
  sizes, channel ids) are modelled as `Int`; local file sizes and counts,
  which are non-negative, as `Nat`.
* The network is an explicit environment (`FileEnv`, `PartEnv`): each call
  site of `upload.go` is recorded as a `NetCall` in a trace, and the
  environment decides each call's outcome.
* Concurrency: part tasks run concurrently in the Go code, so their
  results are collected from a channel in an arbitrary order.  The model
  threads that order through an explicit `collectOrder` parameter, and the
  call trace lists part-upload calls in canonical plan order (the claims
  proved below only depend on which calls occur, never on their
  interleaving).
-/

/-- Go struct `types.PartFile`: the part descriptor returned by the remote API for
one uploaded part (fields as used in `pkg/services/upload.go`). -/
structure PartFile where
  Name : String := ""
  PartNo : Int := 0
  PartId : Int := 0
  Size : Int := 0
  Salt : String := ""
  ChannelID : Int := 0
  Encrypted : Bool := false
deriving Repr, DecidableEq, Inhabited

/-- Go struct `types.FilePart`: one entry of the final manifest's parts list
(`upload.go:297`: `{ID: int64(uploadPart.PartId), PartNo: uploadPart.PartNo,
Salt: uploadPart.Salt}`). -/
structure FilePart where
  ID : Int
  PartNo : Int
  Salt : String
deriving Repr, DecidableEq, Inhabited

/-- Go struct `types.FilePayload`: the manifest POSTed to `/api/files`
(`upload.go:312-321`). -/
structure FilePayload where
  Name : String
  type : String
  Parts : List FilePart
  MimeType : String
  Path : String
  Size : Nat
  ChannelID : Int
  Encrypted : Bool
deriving Repr, DecidableEq, Inhabited

/-- The configuration fields of `UploadService` relevant to one
`UploadFile` run (`upload.go:38-52`). -/
structure Config where
  numWorkers : Nat
  partSize : Nat
  encryptFiles : Bool
  randomisePart : Bool
  channelID : Int
deriving Repr, DecidableEq

/-- The network calls `UploadFile` can issue, in the order the code
mentions them: the existence check (`checkFileExists`), the upload-session
lookup (`GET /api/uploads/{hash}`), a single part upload
(`POST /api/uploads/{hash}` with query parameters `partNo`, `channelId`,
`encrypted`), the manifest commit (`POST /api/files`) and the session
delete (`DELETE /api/uploads/{hash}`). -/
inductive NetCall where
  | checkExists
  | sessionLookup
  | partUpload (partNo : Int) (channelId : Int) (encrypted : Bool)
  | manifestCommit (payload : FilePayload)
  | sessionDelete
deriving Repr, DecidableEq

/-- The error outcomes of `UploadFile`, one per `return err` site. -/
inductive UploadErr where
  | readFailed
  | checkExistsFailed
  | incompleteParts
  | manifestFailed
  | sessionDeleteFailed
deriving Repr, DecidableEq

/-- Environment for one part worker goroutine (`upload.go:229-291`):
whether the local `os.Open` and `Seek` succeed, the outcome of the
part-upload POST (`none` = transport error, otherwise status code and
decoded body), and how many bytes the request consumed from the
progress-proxied reader before finishing or failing. -/
structure PartEnv where
  openOk : Bool
  seekOk : Bool
  netResult : Option (Nat × PartFile)
  bytesRead : Nat
deriving Repr, DecidableEq

/-- Result of one part worker: the `PartFile` it pushed onto the
`uploadedParts` channel (if any), the network calls it made, and the
byte count it reported to the progress bar. -/
structure PartRunOut where
  delivered : Option PartFile
  calls : List NetCall
  progress : Int
deriving Repr, DecidableEq

/-- From `upload.go:184-188`: the `existingParts` map is built by inserting
each part of the session-lookup response keyed by its `PartNo`; a later
entry with the same `PartNo` overwrites an earlier one, and a missing key
looks up to nothing (a `nil` Go map behaves the same way). -/
def buildExistingParts (parts : List PartFile) : Int → Option PartFile :=
  parts.foldl (fun m p => fun n => if n = p.PartNo then some p else m n) (fun _ => none)

/-- One part worker (`upload.go:229-291`), for 0-based plan index
`partNumber`.  It opens its own read handle; if that fails it returns
with nothing delivered.  If `existingParts` has key `partNumber+1` the
existing record is delivered unchanged with no network call, and the
record's size is reported to the progress bar (`bar.IncrInt64`).
Otherwise it seeks, streams the range as a single `POST` (never retried:
the body is a one-shot reader), and delivers the decoded `PartFile`
exactly when the response status is 201. -/
def partTask (existing : Int → Option PartFile) (channelId : Int) (encrypted : Bool)
    (env : PartEnv) (partNumber : Nat) : PartRunOut :=
  if env.openOk = false then ⟨none, [], 0⟩
  else
    match existing ((partNumber : Int) + 1) with
    | some ex => ⟨some ex, [], ex.Size⟩
    | none =>
      if env.seekOk = false then ⟨none, [], 0⟩
      else
        match env.netResult with
        | none => ⟨none, [.partUpload ((partNumber : Int) + 1) channelId encrypted],
                   (env.bytesRead : Int)⟩
        | some (code, pf) =>
          ⟨if code = 201 then some pf else none,
           [.partUpload ((partNumber : Int) + 1) channelId encrypted],
           (env.bytesRead : Int)⟩

/-- From `upload.go:193-196`: `totalParts := fileSize / partSize`, incremented
when the division has a remainder. -/
def totalParts (fileSize partSize : Nat) : Nat :=
  fileSize / partSize + (if fileSize % partSize ≠ 0 then 1 else 0)

/-- From `upload.go:220`: `start := i * partSize`. -/
def partStart (partSize : Nat) (i : Nat) : Nat := i * partSize

/-- From `upload.go:221-224`: `end := start + partSize`, clamped to `fileSize`. -/
def partEnd (fileSize partSize : Nat) (i : Nat) : Nat :=
  let e := partStart partSize i + partSize
  if e > fileSize then fileSize else e

/-- Environment for one whole `UploadFile` run: whether the initial
512-byte MIME-detection read hits a local I/O error (independently of the
end-of-file case, which the model derives from `fileSize = 0`), the
outcome of `checkFileExists` (`none` = network error after retries), the
outcome of the session lookup (`none` = lookup error, treated by the code
as "no existing parts"), the per-part environments, and whether the
manifest POST and the session DELETE succeed. -/
structure FileEnv where
  readIOErr : Bool
  checkExists : Option Bool
  sessionLookup : Option (List PartFile)
  partEnv : Nat → PartEnv
  manifestOk : Bool
  deleteOk : Bool

instance : DecidableEq (Except UploadErr Unit) := fun x y =>
  match x, y with
  | .ok (), .ok () => isTrue rfl
  | .error a, .error b =>
    match decEq a b with
    | isTrue h => isTrue (h ▸ rfl)
    | isFalse h => isFalse (fun hc => h (Except.error.inj hc))
  | .ok _, .error _ => isFalse (fun hc => Except.noConfusion hc)
  | .error _, .ok _ => isFalse (fun hc => Except.noConfusion hc)

/-- Observable outcome of one `UploadFile` run: its returned value, the
network calls it issued, and the byte count reported to
`Progress.AddExisting`. -/
structure RunOut where
  result : Except UploadErr Unit
  calls : List NetCall
  existingBytes : Nat
deriving Repr, DecidableEq

/-- From `upload.go:170-189`: the session-lookup response.  The lookup is
attempted only when `partSize < fileSize`; when it is skipped or fails,
`uploadFile.Parts` keeps its zero value `[]`. -/
def sessionParts (cfg : Config) (fileSize : Nat) (env : FileEnv) : List PartFile :=
  if cfg.partSize < fileSize then (env.sessionLookup).getD [] else []

/-- From `upload.go:201-209`: the channel id used for new part uploads and the
manifest is the first session part's `ChannelID` when the lookup returned
any parts, else the configured default. -/
def effChannelID (cfg : Config) (ps : List PartFile) : Int :=
  match ps with
  | [] => cfg.channelID
  | p :: _ => p.ChannelID

/-- From `upload.go:201-209`: likewise for the encryption flag. -/
def effEncrypted (cfg : Config) (ps : List PartFile) : Bool :=
  match ps with
  | [] => cfg.encryptFiles
  | p :: _ => p.Encrypted

/-- The network calls made by the part workers of one run, listed in
canonical plan order (the real interleaving is arbitrary; the claims only
concern which calls occur). -/
def partCalls (cfg : Config) (fileSize : Nat) (env : FileEnv) : List NetCall :=
  let ps := sessionParts cfg fileSize env
  (List.range (totalParts fileSize cfg.partSize)).flatMap
    (fun i => (partTask (buildExistingParts ps) (effChannelID cfg ps) (effEncrypted cfg ps)
        (env.partEnv i) i).calls)

/-- The multiset of records the part workers push onto the
`uploadedParts` channel, in canonical plan order; the collection loop of
`UploadFile` drains them in an arbitrary permutation of this list. -/
def deliveredParts (cfg : Config) (fileSize : Nat) (env : FileEnv) : List PartFile :=
  let ps := sessionParts cfg fileSize env
  (List.range (totalParts fileSize cfg.partSize)).filterMap
    (fun i => (partTask (buildExistingParts ps) (effChannelID cfg ps) (effEncrypted cfg ps)
        (env.partEnv i) i).delivered)

/-- From `upload.go:294-299`: the collection loop keeps a collected record
only when `PartId != 0 && Size != 0`, turning it into a `FilePart`. -/
def validParts (collected : List PartFile) : List FilePart :=
  collected.filterMap
    (fun p => if p.PartId ≠ 0 ∧ p.Size ≠ 0 then some ⟨p.PartId, p.PartNo, p.Salt⟩ else none)

/-- The comparison `upload.go:308-310` sorts by: ascending `PartNo`. -/
def partLE (a b : FilePart) : Prop := a.PartNo ≤ b.PartNo

instance : DecidableRel partLE :=
  fun a b => inferInstanceAs (Decidable (a.PartNo ≤ b.PartNo))

instance : IsTotal FilePart partLE := ⟨fun a b => Int.le_total a.PartNo b.PartNo⟩

instance : IsTrans FilePart partLE := ⟨fun _ _ _ hab hbc => le_trans hab hbc⟩

/-- From `upload.go:308-310`: `sort.Slice(parts, ...)` by ascending `PartNo`
(modelled by insertion sort: any correct sort realises `sort.Slice`, whose
contract is a sorted permutation). -/
def sortParts (l : List FilePart) : List FilePart := List.insertionSort partLE l

/-- The manifest built at `upload.go:312-321`: the valid collected
records, sorted ascending by part number, with the inherited channel id
and encryption flag. -/
def payloadOf (cfg : Config) (fileName destDir mimeType : String) (fileSize : Nat)
    (env : FileEnv) (collectOrder : List PartFile) : FilePayload :=
  ⟨fileName, "file", sortParts (validParts collectOrder), mimeType, destDir, fileSize,
   effChannelID cfg (sessionParts cfg fileSize env),
   effEncrypted cfg (sessionParts cfg fileSize env)⟩

/-- The calls `UploadFile` has issued by the time the collection loop
finishes: the existence check, the session lookup (when attempted), and
the part workers' upload calls. -/
def preCommitCalls (cfg : Config) (fileSize : Nat) (env : FileEnv) : List NetCall :=
  NetCall.checkExists ::
    ((if cfg.partSize < fileSize then [NetCall.sessionLookup] else [])
      ++ partCalls cfg fileSize env)

/-- From `upload.go:163-355`, everything after a missing existence check:
session lookup, part dispatch, collection in `collectOrder`, the
completeness check `len(parts) != totalParts`, sorting, the manifest
POST and the session DELETE. -/
def partPhaseRun (cfg : Config) (fileName destDir mimeType : String) (fileSize : Nat)
    (env : FileEnv) (collectOrder : List PartFile) : RunOut :=
  let tp := totalParts fileSize cfg.partSize
  let pre := preCommitCalls cfg fileSize env
  if (validParts collectOrder).length ≠ tp then ⟨.error .incompleteParts, pre, 0⟩
  else
    let payload := payloadOf cfg fileName destDir mimeType fileSize env collectOrder
    if env.manifestOk = false then
      ⟨.error .manifestFailed, pre ++ [.manifestCommit payload], 0⟩
    else if env.deleteOk = false then
      ⟨.error .sessionDeleteFailed, pre ++ [.manifestCommit payload, .sessionDelete], 0⟩
    else
      ⟨.ok (), pre ++ [.manifestCommit payload, .sessionDelete], 0⟩

/-- One `UploadFile` run (`upload.go:110-355`).  Steps, in code order:
the initial 512-byte read (`Read` returns `io.EOF` for an empty file, so
`fileSize = 0` or a local I/O error returns early with no network call);
`checkFileExists` (error aborts, a hit records the size as existing and
returns success); then the part phase.  The zap `logger.Fatal` /
`logger.Error` calls are logging effects of an external collaborator and
are not modelled; `json.Marshal` of the payload cannot fail for this
struct type and is omitted. -/
def uploadFileRun (cfg : Config) (fileName destDir mimeType : String) (fileSize : Nat)
    (env : FileEnv) (collectOrder : List PartFile) : RunOut :=
  if fileSize = 0 ∨ env.readIOErr = true then ⟨.error .readFailed, [], 0⟩
  else
    match env.checkExists with
    | none => ⟨.error .checkExistsFailed, [.checkExists], 0⟩
    | some true => ⟨.ok (), [.checkExists], fileSize⟩
    | some false => partPhaseRun cfg fileName destDir mimeType fileSize env collectOrder

/-- Recognise a manifest-commit call in a trace. -/
def isCommit : NetCall → Bool
  | .manifestCommit _ => true
  | _ => false

/-! ### Concrete resume scenario

The spec's scenario: `fileSize = 2500`, `partSize = 1000`, three planned
parts, a resumed session holding parts 1 and 2, and a server that answers
201 for part 3. -/

/-- Resumed record for part 1. -/
def p1 : PartFile := { PartNo := 1, PartId := 11, Size := 1000, ChannelID := 7 }

/-- Resumed record for part 2. -/
def p2 : PartFile := { PartNo := 2, PartId := 12, Size := 1000, ChannelID := 7 }

/-- The server's 201 response body for part 3. -/
def p3 : PartFile := { PartNo := 3, PartId := 13, Size := 500, ChannelID := 7 }

/-- Service configuration for the scenario. -/
def cfg0 : Config :=
  { numWorkers := 4, partSize := 1000, encryptFiles := false,
    randomisePart := false, channelID := 7 }

/-- Environment for the scenario: file absent remotely, session lookup
returns parts 1 and 2, every local operation succeeds, part 3's POST is
answered 201, manifest and delete succeed. -/
def env0 : FileEnv :=
  { readIOErr := false, checkExists := some false, sessionLookup := some [p1, p2],
    partEnv := fun _ => ⟨true, true, some (201, p3), 500⟩,
    manifestOk := true, deleteOk := true }

/-- One possible channel-drain order for the scenario (parts interleave
arbitrarily; here part 3 lands between parts 1 and 2). -/
def order0 : List PartFile := [p1, p3, p2]

/-! ### The part-level worker pool

`upload.go:199` creates `concurrentWorkers := make(chan struct{}, u.numWorkers)`
*inside* `UploadFile`, so every in-flight file owns a fresh part-level
semaphore of capacity `numWorkers`; `upload.go:227` acquires a slot before
launching a part goroutine and `upload.go:231-233` releases it when the
goroutine ends.  (By contrast, the file-level semaphore `concurrentFiles`
is created once per service, `upload.go:58`.)  A pool state lists the
in-flight part count of each file currently inside `UploadFile`. -/

/-- One scheduler transition of the part-pool system: a new file enters
`UploadFile` (fresh semaphore, count 0), a part goroutine of file `i`
acquires a slot of that file's own semaphore (possible whenever fewer
than `numWorkers` parts of *that file* are in flight, regardless of other
files), or releases it. -/
inductive PoolStep (nw : Nat) : List Nat → List Nat → Prop
  | startFile (s : List Nat) : PoolStep nw s (s ++ [0])
  | acquire (s : List Nat) (i : Nat) (hi : i < s.length) (h : s.getD i 0 < nw) :
      PoolStep nw s (s.set i (s.getD i 0 + 1))
  | release (s : List Nat) (i : Nat) (h : 0 < s.getD i 0) :
      PoolStep nw s (s.set i (s.getD i 0 - 1))

/-- Pool states reachable from the initial state (no file in flight). -/
inductive PoolReachable (nw : Nat) : List Nat → Prop
  | init : PoolReachable nw []
  | step {s t : List Nat} : PoolReachable nw s → PoolStep nw s t → PoolReachable nw t

/-! ## Helper lemmas -/

/-- Index `i` is a planned part index exactly when its range start lies inside
the file. -/
theorem lt_totalParts_iff (n p i : Nat) (hp : 0 < p) :
    i < totalParts n p ↔ i * p < n := by
  unfold totalParts
  rcases Nat.eq_zero_or_pos (n % p) with h | h
  · obtain ⟨q, rfl⟩ : p ∣ n := Nat.dvd_of_mod_eq_zero h
    rw [Nat.mul_div_cancel_left q hp]
    simp only [h, ne_eq, not_true_eq_false, if_false, Nat.add_zero]
    rw [Nat.mul_comm p q]
    exact (Nat.mul_lt_mul_right hp).symm
  · have hqr : p * (n / p) + n % p = n := Nat.div_add_mod n p
    have hr : n % p < p := Nat.mod_lt n hp
    simp only [ne_eq, Nat.pos_iff_ne_zero.mp h, not_false_eq_true, if_true]
    constructor
    · intro hi
      have hi2 : i ≤ n / p := by omega
      have := Nat.mul_le_mul_right p hi2
      have hc : p * (n / p) = (n / p) * p := Nat.mul_comm _ _
      omega
    · intro hi
      by_contra hcon
      have hi2 : n / p + 1 ≤ i := by omega
      have := Nat.mul_le_mul_right p hi2
      have hs : (n / p + 1) * p = (n / p) * p + p := Nat.succ_mul _ _
      have hc : p * (n / p) = (n / p) * p := Nat.mul_comm _ _
      omega

/-- Fact: `totalParts` is ceiling division. -/
theorem totalParts_eq_ceil (n p : Nat) (hp : 0 < p) :
    totalParts n p = (n + p - 1) / p := by
  unfold totalParts
  rcases Nat.eq_zero_or_pos (n % p) with h | h
  · obtain ⟨q, rfl⟩ : p ∣ n := Nat.dvd_of_mod_eq_zero h
    rw [Nat.mul_div_cancel_left q hp]
    simp only [h, ne_eq, not_true_eq_false, if_false, Nat.add_zero]
    have he : p * q + p - 1 = p * q + (p - 1) := by omega
    rw [he, Nat.mul_add_div hp, Nat.div_eq_of_lt (show p - 1 < p by omega)]
    omega
  · have hqr : p * (n / p) + n % p = n := Nat.div_add_mod n p
    have hr : n % p < p := Nat.mod_lt n hp
    simp only [ne_eq, Nat.pos_iff_ne_zero.mp h, not_false_eq_true, if_true]
    have hs : p * (n / p + 1) = p * (n / p) + p := by ring
    have he : n + p - 1 = p * (n / p + 1) + (n % p - 1) := by omega
    rw [he, Nat.mul_add_div hp, Nat.div_eq_of_lt (show n % p - 1 < p by omega)]

/-- The range end computed at `upload.go:221-224` equals the clamped
multiple of `partSize`. -/
theorem partEnd_eq_min (n p i : Nat) :
    partEnd n p i = min ((i + 1) * p) n := by
  unfold partEnd partStart
  have hs : (i + 1) * p = i * p + p := Nat.succ_mul _ _
  simp only []
  split <;> omega

/-- Every network call a part worker makes is the single part-upload POST
for its own 1-based part number, with the channel id and encryption flag
it was handed. -/
theorem partTask_calls_shape (existing : Int → Option PartFile) (chId : Int) (enc : Bool)
    (penv : PartEnv) (i : Nat) :
    ∀ c ∈ (partTask existing chId enc penv i).calls,
      c = NetCall.partUpload ((i : Int) + 1) chId enc := by
  unfold partTask
  split
  · simp
  · split
    · simp
    · split
      · simp
      · split
        · simp
        · simp

/-- Every call in `partCalls` is a part-upload POST carrying the
inherited channel id and encryption flag. -/
theorem partCalls_shape (cfg : Config) (fileSize : Nat) (env : FileEnv) :
    ∀ c ∈ partCalls cfg fileSize env, ∃ i : Nat,
      c = NetCall.partUpload ((i : Int) + 1)
            (effChannelID cfg (sessionParts cfg fileSize env))
            (effEncrypted cfg (sessionParts cfg fileSize env)) := by
  intro c hc
  unfold partCalls at hc
  simp only [List.mem_flatMap, List.mem_range] at hc
  obtain ⟨i, _, hmem⟩ := hc
  exact ⟨i, partTask_calls_shape _ _ _ _ i c hmem⟩

/-- No call issued before the completeness check is a manifest commit. -/
theorem preCommitCalls_no_commit (cfg : Config) (fileSize : Nat) (env : FileEnv) :
    ∀ c ∈ preCommitCalls cfg fileSize env, isCommit c = false := by
  intro c hc
  unfold preCommitCalls at hc
  rcases List.mem_cons.mp hc with h | h
  · subst h; rfl
  · rcases List.mem_append.mp h with h2 | h2
    · split at h2
      · rcases List.mem_singleton.mp h2 with rfl; rfl
      · cases h2
    · obtain ⟨i, rfl⟩ := partCalls_shape cfg fileSize env c h2
      rfl

/-- Hence the pre-commit trace answers `any isCommit` with `false`. -/
theorem preCommitCalls_any_commit (cfg : Config) (fileSize : Nat) (env : FileEnv) :
    (preCommitCalls cfg fileSize env).any isCommit = false := by
  rw [List.any_eq_false]
  intro c hc
  simp [preCommitCalls_no_commit cfg fileSize env c hc]

/-- When the completeness check fails, the trace stops at the pre-commit
calls. -/
theorem partPhaseRun_calls_incomplete (cfg : Config) (fn dd mt : String) (fileSize : Nat)
    (env : FileEnv) (order : List PartFile)
    (h : (validParts order).length ≠ totalParts fileSize cfg.partSize) :
    partPhaseRun cfg fn dd mt fileSize env order =
      ⟨.error .incompleteParts, preCommitCalls cfg fileSize env, 0⟩ := by
  unfold partPhaseRun
  simp [h]

/-- When the completeness check passes, the trace is the pre-commit calls
followed by the manifest commit (and the session delete, unless the
manifest POST failed). -/
theorem partPhaseRun_calls_complete (cfg : Config) (fn dd mt : String) (fileSize : Nat)
    (env : FileEnv) (order : List PartFile)
    (h : (validParts order).length = totalParts fileSize cfg.partSize) :
    (partPhaseRun cfg fn dd mt fileSize env order).calls = preCommitCalls cfg fileSize env
      ++ NetCall.manifestCommit (payloadOf cfg fn dd mt fileSize env order)
        :: (if env.manifestOk = false then [] else [NetCall.sessionDelete]) := by
  unfold partPhaseRun
  by_cases hm : env.manifestOk = false
  · simp [h, hm]
  · by_cases hd : env.deleteOk = false <;> simp [h, hm, hd]

/-- Any manifest-commit call in a run's trace carries exactly the payload
built from the sorted valid parts, and can only occur when the valid-part
count matches the plan. -/
theorem commit_mem_characterisation (cfg : Config) (fn dd mt : String) (fileSize : Nat)
    (env : FileEnv) (order : List PartFile) (pl : FilePayload)
    (hmem : NetCall.manifestCommit pl ∈ (uploadFileRun cfg fn dd mt fileSize env order).calls) :
    pl = payloadOf cfg fn dd mt fileSize env order
    ∧ (validParts order).length = totalParts fileSize cfg.partSize := by
  unfold uploadFileRun at hmem
  split at hmem
  · cases hmem
  · split at hmem
    · rcases List.mem_singleton.mp hmem with h
      simp at h
    · rcases List.mem_singleton.mp hmem with h
      simp at h
    · by_cases hlen : (validParts order).length = totalParts fileSize cfg.partSize
      · rw [partPhaseRun_calls_complete cfg fn dd mt fileSize env order hlen] at hmem
        rcases List.mem_append.mp hmem with h2 | h2
        · have := preCommitCalls_no_commit cfg fileSize env _ h2
          simp [isCommit] at this
        · rcases List.mem_cons.mp h2 with h3 | h3
          · cases NetCall.manifestCommit.inj h3
            exact ⟨rfl, hlen⟩
          · split at h3
            · cases h3
            · rcases List.mem_singleton.mp h3 with h4
              simp at h4
      · rw [partPhaseRun_calls_incomplete cfg fn dd mt fileSize env order hlen] at hmem
        have := preCommitCalls_no_commit cfg fileSize env _ hmem
        simp [isCommit] at this

/-! ## Claim theorems: the part plan -/

/-- C2: for every `fileSize` and every `partSize > 0`, `UploadFile`'s
part plan consists of `ceil(fileSize/partSize)` parts; part `i` (0-based)
covers `[i*partSize, min((i+1)*partSize, fileSize))`; the ranges are
contiguous, pairwise non-overlapping, and their union is exactly
`[0, fileSize)`. -/
theorem partPlan_spec (n p : Nat) (hp : 0 < p) :
    totalParts n p = (n + p - 1) / p
    ∧ (∀ i, partStart p i = i * p ∧ partEnd n p i = min ((i + 1) * p) n)
    ∧ (∀ i, i + 1 < totalParts n p → partEnd n p i = partStart p (i + 1))
    ∧ (∀ i j, i < j → partEnd n p i ≤ partStart p j)
    ∧ (∀ i, i < totalParts n p → partStart p i < partEnd n p i ∧ partEnd n p i ≤ n)
    ∧ (∀ b, b < n → ∃ i, i < totalParts n p ∧ partStart p i ≤ b ∧ b < partEnd n p i) := by
  refine ⟨totalParts_eq_ceil n p hp, fun i => ⟨rfl, partEnd_eq_min n p i⟩, ?_, ?_, ?_, ?_⟩
  · intro i hi
    have hlt : (i + 1) * p < n := (lt_totalParts_iff n p (i + 1) hp).mp (by omega)
    rw [partEnd_eq_min]
    unfold partStart
    omega
  · intro i j hij
    rw [partEnd_eq_min]
    unfold partStart
    have : (i + 1) * p ≤ j * p := Nat.mul_le_mul_right p (by omega)
    omega
  · intro i hi
    have hlt : i * p < n := (lt_totalParts_iff n p i hp).mp hi
    rw [partEnd_eq_min]
    unfold partStart
    have hs : (i + 1) * p = i * p + p := Nat.succ_mul _ _
    omega
  · intro b hb
    refine ⟨b / p, ?_, ?_, ?_⟩
    · exact (lt_totalParts_iff n p (b / p) hp).mpr
        (lt_of_le_of_lt (Nat.div_mul_le_self b p) hb)
    · exact Nat.div_mul_le_self b p
    · rw [partEnd_eq_min]
      have hqr : p * (b / p) + b % p = b := Nat.div_add_mod b p
      have hr : b % p < p := Nat.mod_lt b hp
      have hs : (b / p + 1) * p = (b / p) * p + p := Nat.succ_mul _ _
      have hc : p * (b / p) = (b / p) * p := Nat.mul_comm _ _
      omega

/-- Witness for C2 at the spec's scenario sizes. -/
theorem partPlan_spec_witness : totalParts 2500 1000 = (2500 + 1000 - 1) / 1000 :=
  (partPlan_spec 2500 1000 (by decide)).1

/-! ## Claim theorems: the orchestrator -/

/-- C10: for a zero-byte local file, `UploadFile` errors at the initial
512-byte MIME-detection read (`Read` yields `io.EOF`), before any
network request — the trace is empty: no existence check, session
lookup, part upload, manifest or session-delete call. -/
theorem empty_file_read_error (cfg : Config) (fn dd mt : String) (env : FileEnv)
    (order : List PartFile) :
    uploadFileRun cfg fn dd mt 0 env order = ⟨.error .readFailed, [], 0⟩ := by
  unfold uploadFileRun
  simp

/-- C6: when the existence check reports the file as already present,
`UploadFile` records the file's size as existing bytes and returns
success, with the existence check as the only network call — zero
session lookups, part uploads, manifest or session-delete calls. -/
theorem existing_file_short_circuit (cfg : Config) (fn dd mt : String) (fileSize : Nat)
    (env : FileEnv) (order : List PartFile)
    (hfs : fileSize ≠ 0) (hread : env.readIOErr = false)
    (hchk : env.checkExists = some true) :
    uploadFileRun cfg fn dd mt fileSize env order =
      ⟨.ok (), [.checkExists], fileSize⟩ := by
  unfold uploadFileRun
  rw [if_neg (by simp [hfs, hread]), hchk]

/-- Witness for C6: concrete run with the scenario sizes and the file
already present remotely. -/
theorem existing_file_short_circuit_witness :
    uploadFileRun cfg0 "f" "/d" "m" 2500 { env0 with checkExists := some true } order0 =
      ⟨.ok (), [.checkExists], 2500⟩ :=
  existing_file_short_circuit cfg0 "f" "/d" "m" 2500 _ order0 (by decide) rfl rfl

/-- C1: a run that reaches the part phase issues the manifest commit
(`POST /files`) exactly when the number of collected valid part records
equals the planned part count; in particular, when any dispatched part
task fails — so fewer records are collected than planned — no
`POST /files` call occurs and the run returns the incomplete-parts
error, leaving the remote file uncommitted. -/
theorem uploadFile_commit_iff_parts_complete (cfg : Config) (fn dd mt : String)
    (fileSize : Nat) (env : FileEnv) (order : List PartFile)
    (hfs : fileSize ≠ 0) (hread : env.readIOErr = false)
    (hchk : env.checkExists = some false) :
    ((uploadFileRun cfg fn dd mt fileSize env order).calls.any isCommit = true ↔
      (validParts order).length = totalParts fileSize cfg.partSize)
    ∧ (order.length < totalParts fileSize cfg.partSize →
        (uploadFileRun cfg fn dd mt fileSize env order).result =
          .error .incompleteParts
        ∧ (uploadFileRun cfg fn dd mt fileSize env order).calls.any isCommit = false) := by
  have hrun : uploadFileRun cfg fn dd mt fileSize env order =
      partPhaseRun cfg fn dd mt fileSize env order := by
    unfold uploadFileRun
    rw [if_neg (by simp [hfs, hread]), hchk]
  rw [hrun]
  by_cases hlen : (validParts order).length = totalParts fileSize cfg.partSize
  · constructor
    · rw [partPhaseRun_calls_complete cfg fn dd mt fileSize env order hlen]
      constructor
      · intro _; exact hlen
      · intro _
        rw [List.any_append]
        simp [isCommit]
    · intro hlt
      exact absurd hlen (by
        have := List.length_filterMap_le
          (fun p => if p.PartId ≠ 0 ∧ p.Size ≠ 0 then
            some (FilePart.mk p.PartId p.PartNo p.Salt) else none) order
        unfold validParts
        omega)
  · rw [partPhaseRun_calls_incomplete cfg fn dd mt fileSize env order hlen]
    refine ⟨⟨fun h => ?_, fun h => absurd h hlen⟩, fun _ =>
      ⟨rfl, preCommitCalls_any_commit cfg fileSize env⟩⟩
    rw [preCommitCalls_any_commit cfg fileSize env] at h
    cases h

/-- Witness for C1: the scenario run commits, and its valid-part count
equals the plan. -/
theorem uploadFile_commit_iff_parts_complete_witness :
    (uploadFileRun cfg0 "f" "/d" "m" 2500 env0 order0).calls.any isCommit = true ∧
    (validParts order0).length = totalParts 2500 cfg0.partSize := by
  have h := uploadFile_commit_iff_parts_complete cfg0 "f" "/d" "m" 2500 env0 order0
    (by decide) rfl rfl
  exact ⟨h.1.mpr (by decide), by decide⟩

/-- C4: whatever order the part records are collected in, any committed
manifest's parts list is sorted ascending by part number. -/
theorem manifest_sorted_by_partNo (cfg : Config) (fn dd mt : String) (fileSize : Nat)
    (env : FileEnv) (order : List PartFile) (pl : FilePayload)
    (hmem : NetCall.manifestCommit pl ∈ (uploadFileRun cfg fn dd mt fileSize env order).calls) :
    List.Sorted partLE pl.Parts := by
  rcases commit_mem_characterisation cfg fn dd mt fileSize env order pl hmem with ⟨rfl, _⟩
  exact List.sorted_insertionSort partLE (validParts order)

/-- Witness for C4: the scenario's committed manifest is sorted even
though part 3 was collected between parts 1 and 2. -/
theorem manifest_sorted_by_partNo_witness :
    List.Sorted partLE (payloadOf cfg0 "f" "/d" "m" 2500 env0 order0).Parts :=
  manifest_sorted_by_partNo cfg0 "f" "/d" "m" 2500 env0 order0 _ (by decide)

/-! ## Claim theorems: the part worker -/

/-- C7: a part that goes over the network makes exactly one upload call
(no retry within the run), and contributes a record exactly when the
response status is 201; a transport error or any non-201 status drops
the part. -/
theorem part_upload_requires_201 (existing : Int → Option PartFile) (chId : Int)
    (enc : Bool) (penv : PartEnv) (i : Nat)
    (hopen : penv.openOk = true) (hex : existing ((i : Int) + 1) = none)
    (hseek : penv.seekOk = true) :
    (partTask existing chId enc penv i).calls
        = [NetCall.partUpload ((i : Int) + 1) chId enc]
    ∧ (∀ pf, (partTask existing chId enc penv i).delivered = some pf ↔
        penv.netResult = some (201, pf))
    ∧ (penv.netResult = none → (partTask existing chId enc penv i).delivered = none)
    ∧ (∀ code pf, penv.netResult = some (code, pf) → code ≠ 201 →
        (partTask existing chId enc penv i).delivered = none) := by
  rcases hnr : penv.netResult with _ | ⟨code, pf0⟩
  · simp [partTask, hopen, hex, hseek, hnr]
  · by_cases hc : code = 201
    · subst hc
      simp [partTask, hopen, hex, hseek, hnr]
    · simp [partTask, hopen, hex, hseek, hnr, hc]

/-- Witness for C7: in the scenario, part 3's 201 response is delivered. -/
theorem part_upload_requires_201_witness :
    (partTask (buildExistingParts []) 7 false ⟨true, true, some (201, p3), 500⟩ 2).delivered
      = some p3 :=
  ((part_upload_requires_201 (buildExistingParts []) 7 false
      ⟨true, true, some (201, p3), 500⟩ 2 rfl rfl rfl).2.1 p3).mpr rfl

/-- C3: a part whose 1-based number is a key of the resumed session's
`existingParts` map is emitted unchanged with no network call, and its
byte size is still reported to the progress collaborator; and in the
scenario with parts 1 and 2 existing out of 3 planned, the run's only
part-upload call is for part 3. -/
theorem resume_part_reused_no_network (existing : Int → Option PartFile) (chId : Int)
    (enc : Bool) (penv : PartEnv) (i : Nat) (p : PartFile)
    (hopen : penv.openOk = true) (hex : existing ((i : Int) + 1) = some p) :
    partTask existing chId enc penv i = ⟨some p, [], p.Size⟩
    ∧ partCalls cfg0 2500 env0 = [NetCall.partUpload 3 7 false] := by
  refine ⟨?_, by decide⟩
  simp [partTask, hopen, hex]

/-- Witness for C3: the scenario's part 1 is reused verbatim, with no
call and its 1000 bytes signalled. -/
theorem resume_part_reused_no_network_witness :
    partTask (buildExistingParts [p1, p2]) 7 false ⟨true, true, none, 0⟩ 0 =
      ⟨some p1, [], p1.Size⟩ :=
  (resume_part_reused_no_network (buildExistingParts [p1, p2]) 7 false
    ⟨true, true, none, 0⟩ 0 p1 rfl (by decide)).1

/-! ## Claim theorems: manifest contents -/

/-- Unfolding of `validParts` over a cons cell. -/
theorem validParts_cons (a : PartFile) (t : List PartFile) :
    validParts (a :: t) = if a.PartId ≠ 0 ∧ a.Size ≠ 0 then
      FilePart.mk a.PartId a.PartNo a.Salt :: validParts t else validParts t := by
  by_cases h : a.PartId ≠ 0 ∧ a.Size ≠ 0
  · simp [validParts, List.filterMap_cons, h]
  · simp [validParts, List.filterMap_cons, h]

/-- Filtering never grows the list. -/
theorem validParts_length_le (l : List PartFile) : (validParts l).length ≤ l.length :=
  List.length_filterMap_le _ _

/-- A collected record with a zero part id or size strictly shrinks the
valid-part count below the collected count. -/
theorem validParts_length_lt (order : List PartFile) (q : PartFile)
    (hq : q ∈ order) (hbad : q.PartId = 0 ∨ q.Size = 0) :
    (validParts order).length < order.length := by
  induction order with
  | nil => cases hq
  | cons a t ih =>
    rw [validParts_cons]
    rcases List.mem_cons.mp hq with rfl | hmem
    · have hc : ¬(q.PartId ≠ 0 ∧ q.Size ≠ 0) := by tauto
      rw [if_neg hc]
      have := validParts_length_le t
      simp only [List.length_cons]
      omega
    · have hlt := ih hmem
      split
      · simp only [List.length_cons]
        omega
      · simp only [List.length_cons]
        omega

/-- C9: every part of a committed manifest stems from a collected record
with nonzero remote part id and nonzero size (so every manifest entry
has a nonzero id); and a collected record with a zero part id or zero
size is excluded, making the completeness check fail even when every
planned part was delivered. -/
theorem manifest_parts_nonzero (cfg : Config) (fn dd mt : String) (fileSize : Nat)
    (env : FileEnv) (order : List PartFile) :
    (∀ pl, NetCall.manifestCommit pl ∈
        (uploadFileRun cfg fn dd mt fileSize env order).calls →
      ∀ fp ∈ pl.Parts, fp.ID ≠ 0 ∧
        ∃ q ∈ order, q.PartId = fp.ID ∧ q.PartNo = fp.PartNo ∧ q.Salt = fp.Salt ∧
          q.PartId ≠ 0 ∧ q.Size ≠ 0)
    ∧ (∀ q ∈ order, (q.PartId = 0 ∨ q.Size = 0) →
        order.length = totalParts fileSize cfg.partSize →
        fileSize ≠ 0 → env.readIOErr = false → env.checkExists = some false →
        (uploadFileRun cfg fn dd mt fileSize env order).result =
          .error .incompleteParts
        ∧ (uploadFileRun cfg fn dd mt fileSize env order).calls.any isCommit = false) := by
  constructor
  · intro pl hmem fp hfp
    rcases commit_mem_characterisation cfg fn dd mt fileSize env order pl hmem with ⟨rfl, _⟩
    have hfp2 : fp ∈ validParts order := by
      have hperm := List.perm_insertionSort partLE (validParts order)
      exact hperm.mem_iff.mp hfp
    rcases List.mem_filterMap.mp hfp2 with ⟨q, hqmem, hq⟩
    by_cases hcond : q.PartId ≠ 0 ∧ q.Size ≠ 0
    · rw [if_pos hcond] at hq
      cases Option.some.inj hq
      exact ⟨hcond.1, q, hqmem, rfl, rfl, rfl, hcond.1, hcond.2⟩
    · rw [if_neg hcond] at hq
      cases hq
  · intro q hq hbad hlenEq hfs hread hchk
    have hrun : uploadFileRun cfg fn dd mt fileSize env order =
        partPhaseRun cfg fn dd mt fileSize env order := by
      unfold uploadFileRun
      rw [if_neg (by simp [hfs, hread]), hchk]
    have hlt := validParts_length_lt order q hq hbad
    have hne : (validParts order).length ≠ totalParts fileSize cfg.partSize := by omega
    rw [hrun, partPhaseRun_calls_incomplete cfg fn dd mt fileSize env order hne]
    exact ⟨rfl, preCommitCalls_any_commit cfg fileSize env⟩

/-- Witness for C9: the first entry of the scenario's committed manifest
has a nonzero id and stems from the resumed record for part 1. -/
theorem manifest_parts_nonzero_witness :
    (⟨11, 1, ""⟩ : FilePart).ID ≠ 0 ∧
      ∃ q ∈ order0, q.PartId = (⟨11, 1, ""⟩ : FilePart).ID ∧
        q.PartNo = (⟨11, 1, ""⟩ : FilePart).PartNo ∧
        q.Salt = (⟨11, 1, ""⟩ : FilePart).Salt ∧ q.PartId ≠ 0 ∧ q.Size ≠ 0 :=
  (manifest_parts_nonzero cfg0 "f" "/d" "m" 2500 env0 order0).1
    (payloadOf cfg0 "f" "/d" "m" 2500 env0 order0) (by decide) ⟨11, 1, ""⟩ (by decide)

/-- A part-upload call found anywhere before the commit carries the
inherited channel id and encryption flag. -/
theorem preCommitCalls_partUpload (cfg : Config) (fileSize : Nat) (env : FileEnv)
    (pn ch : Int) (en : Bool)
    (h : NetCall.partUpload pn ch en ∈ preCommitCalls cfg fileSize env) :
    ch = effChannelID cfg (sessionParts cfg fileSize env)
    ∧ en = effEncrypted cfg (sessionParts cfg fileSize env) := by
  unfold preCommitCalls at h
  rcases List.mem_cons.mp h with h1 | h1
  · simp at h1
  · rcases List.mem_append.mp h1 with h2 | h2
    · split at h2
      · rcases List.mem_singleton.mp h2 with h3
        simp at h3
      · cases h2
    · obtain ⟨i, heq⟩ := partCalls_shape cfg fileSize env _ h2
      obtain ⟨-, hch, hen⟩ := NetCall.partUpload.inj heq
      exact ⟨hch, hen⟩

/-- Every part-upload call of a run carries the inherited channel id and
encryption flag. -/
theorem run_partUpload_eff (cfg : Config) (fn dd mt : String) (fileSize : Nat)
    (env : FileEnv) (order : List PartFile) (pn ch : Int) (en : Bool)
    (h : NetCall.partUpload pn ch en ∈
        (uploadFileRun cfg fn dd mt fileSize env order).calls) :
    ch = effChannelID cfg (sessionParts cfg fileSize env)
    ∧ en = effEncrypted cfg (sessionParts cfg fileSize env) := by
  unfold uploadFileRun at h
  split at h
  · cases h
  · split at h
    · rcases List.mem_singleton.mp h with h2
      simp at h2
    · rcases List.mem_singleton.mp h with h2
      simp at h2
    · by_cases hlen : (validParts order).length = totalParts fileSize cfg.partSize
      · rw [partPhaseRun_calls_complete cfg fn dd mt fileSize env order hlen] at h
        rcases List.mem_append.mp h with h2 | h2
        · exact preCommitCalls_partUpload cfg fileSize env pn ch en h2
        · rcases List.mem_cons.mp h2 with h3 | h3
          · simp at h3
          · split at h3
            · cases h3
            · rcases List.mem_singleton.mp h3 with h4
              simp at h4
      · rw [partPhaseRun_calls_incomplete cfg fn dd mt fileSize env order hlen] at h
        exact preCommitCalls_partUpload cfg fileSize env pn ch en h

/-- C8: when the session lookup of a resumed upload returns at least one
existing part record, every newly uploaded part and any committed
manifest use the first existing record's channel id and encryption flag
rather than the configured defaults; with no existing parts the
configured defaults are used. -/
theorem resumed_channel_encryption_inherited (cfg : Config) (fn dd mt : String)
    (fileSize : Nat) (env : FileEnv) (order : List PartFile) :
    (∀ p rest, cfg.partSize < fileSize → env.sessionLookup = some (p :: rest) →
      (∀ pn ch en, NetCall.partUpload pn ch en ∈
          (uploadFileRun cfg fn dd mt fileSize env order).calls →
        ch = p.ChannelID ∧ en = p.Encrypted)
      ∧ (∀ pl, NetCall.manifestCommit pl ∈
          (uploadFileRun cfg fn dd mt fileSize env order).calls →
        pl.ChannelID = p.ChannelID ∧ pl.Encrypted = p.Encrypted))
    ∧ (sessionParts cfg fileSize env = [] →
      (∀ pn ch en, NetCall.partUpload pn ch en ∈
          (uploadFileRun cfg fn dd mt fileSize env order).calls →
        ch = cfg.channelID ∧ en = cfg.encryptFiles)
      ∧ (∀ pl, NetCall.manifestCommit pl ∈
          (uploadFileRun cfg fn dd mt fileSize env order).calls →
        pl.ChannelID = cfg.channelID ∧ pl.Encrypted = cfg.encryptFiles)) := by
  constructor
  · intro p rest hlt hsl
    have hsp : sessionParts cfg fileSize env = p :: rest := by
      unfold sessionParts
      rw [if_pos hlt, hsl]
      rfl
    constructor
    · intro pn ch en h
      have := run_partUpload_eff cfg fn dd mt fileSize env order pn ch en h
      rw [hsp] at this
      exact this
    · intro pl h
      rcases commit_mem_characterisation cfg fn dd mt fileSize env order pl h with ⟨rfl, -⟩
      unfold payloadOf
      rw [hsp]
      exact ⟨rfl, rfl⟩
  · intro hsp
    constructor
    · intro pn ch en h
      have := run_partUpload_eff cfg fn dd mt fileSize env order pn ch en h
      rw [hsp] at this
      exact this
    · intro pl h
      rcases commit_mem_characterisation cfg fn dd mt fileSize env order pl h with ⟨rfl, -⟩
      unfold payloadOf
      rw [hsp]
      exact ⟨rfl, rfl⟩

/-- Witness for C8: in the scenario, the single upload call's channel id
and flag are the resumed part 1's values. -/
theorem resumed_channel_encryption_inherited_witness :
    (7 : Int) = p1.ChannelID ∧ false = p1.Encrypted :=
  ((resumed_channel_encryption_inherited cfg0 "f" "/d" "m" 2500 env0 order0).1
    p1 [p2] (by decide) rfl).1 3 7 false (by decide)

/-! ## Claim theorems: the part-level pool -/

/-- Reachability of the state with two files in flight, each holding two
part slots of its own pool of capacity 2. -/
theorem poolReachable_two_two : PoolReachable 2 [2, 2] := by
  have h0 : PoolReachable 2 ([] : List Nat) := PoolReachable.init
  have h1 : PoolReachable 2 [0] := h0.step (PoolStep.startFile [])
  have h2 : PoolReachable 2 [0, 0] := h1.step (PoolStep.startFile [0])
  have h3 : PoolReachable 2 [1, 0] :=
    h2.step (PoolStep.acquire [0, 0] 0 (by decide) (by decide))
  have h4 : PoolReachable 2 [2, 0] :=
    h3.step (PoolStep.acquire [1, 0] 0 (by decide) (by decide))
  have h5 : PoolReachable 2 [2, 1] :=
    h4.step (PoolStep.acquire [2, 0] 1 (by decide) (by decide))
  exact h5.step (PoolStep.acquire [2, 1] 1 (by decide) (by decide))

/-- Counterexample to C5: the part-level semaphore is created inside
`UploadFile` (`upload.go:199`), one per file, so with `numWorkers = 2`
and two files in flight the scheduler can reach a state with four
in-flight part transfers — the claimed global bound of 2 fails. -/
theorem partPool_shared_counterexample :
    PoolReachable 2 [2, 2] ∧ ¬ (List.sum [2, 2] ≤ 2) :=
  ⟨poolReachable_two_two, by decide⟩

/-- C5 (amended): each file upload creates its own part-level pool of
the configured size, so in every reachable pool state each file's
in-flight part count is at most `numWorkers` and the global total is
bounded only by `numWorkers` times the number of in-flight files. -/
theorem partPool_per_file_bound (nw : Nat) (s : List Nat) (h : PoolReachable nw s) :
    (∀ c ∈ s, c ≤ nw) ∧ s.sum ≤ s.length * nw := by
  have hmem : ∀ c ∈ s, c ≤ nw := by
    induction h with
    | init =>
      intro c hc
      cases hc
    | @step s0 t0 hr hstep ih =>
      cases hstep with
      | startFile =>
        intro c hc
        rcases List.mem_append.mp hc with h1 | h1
        · exact ih c h1
        · rcases List.mem_singleton.mp h1 with rfl
          omega
      | acquire i hi hlt =>
        intro c hc
        rcases List.mem_or_eq_of_mem_set hc with h1 | h1
        · exact ih c h1
        · subst h1
          omega
      | release i hpos =>
        intro c hc
        rcases List.mem_or_eq_of_mem_set hc with h1 | h1
        · exact ih c h1
        · subst h1
          have hlen : i < s0.length := by
            by_contra hcon
            rw [List.getD_eq_default _ _ (by omega)] at hpos
            omega
          have hmem0 : s0.getD i 0 ∈ s0 := by
            rw [List.getD_eq_getElem _ _ hlen]
            exact List.getElem_mem hlen
          have := ih _ hmem0
          omega
  refine ⟨hmem, ?_⟩
  have := List.sum_le_card_nsmul s nw hmem
  simpa using this

/-- Witness for the amended C5 at the four-in-flight state. -/
theorem partPool_per_file_bound_witness :
    (∀ c ∈ [2, 2], c ≤ 2) ∧ List.sum [2, 2] ≤ List.length [2, 2] * 2 :=
  partPool_per_file_bound 2 [2, 2] poolReachable_two_two

-- Scratch checks of the part plan on the spec's scenario.
example : totalParts 2500 1000 = 3 := by decide
example : partStart 1000 2 = 2000 ∧ partEnd 2500 1000 2 = 2500 := by decide
example : partTask (buildExistingParts [{ PartNo := 1, PartId := 5, Size := 10 }]) 7 false
    ⟨true, true, none, 0⟩ 0 = ⟨some { PartNo := 1, PartId := 5, Size := 10 }, [], 10⟩ := by decide
example : partCalls cfg0 2500 env0 = [NetCall.partUpload 3 7 false] := by decide
example : (uploadFileRun cfg0 "f" "/d" "m" 2500 env0 order0).result = .ok () := by decide
example : (uploadFileRun cfg0 "f" "/d" "m" 2500 env0 order0).calls =
    [NetCall.checkExists, NetCall.sessionLookup, NetCall.partUpload 3 7 false,
     NetCall.manifestCommit (payloadOf cfg0 "f" "/d" "m" 2500 env0 order0),
     NetCall.sessionDelete] := by decide
